import Mathlib

/-!
Verification of the pydaymet request-orchestration core against its
natural-language specification.  The definitions below are a shallow
embedding of the Python sources `src/pydaymet/cli.py` and
`src/pydaymet/pydaymet.py`: geometries are modelled as axis-aligned
rational rectangles (points as degenerate rectangles), machine floats
as rationals, Python dicts as ordered association lists, and raised
exceptions as `Except`/`Option` errors.
-/

namespace PyDaymet

/-! ## Region resolution (`cli.py`, `_get_region`)

Geometries are modelled as nonempty axis-aligned rectangles in
geographic coordinates; a point is the degenerate rectangle with
`x1 = x2` and `y1 = y2`.  `shapely.geometry.box(minx, miny, maxx, maxy)`
is the closed rectangle `[minx, maxx] x [miny, maxy]`. -/

structure Rect where
  x1 : ℚ
  y1 : ℚ
  x2 : ℚ
  y2 : ℚ
deriving DecidableEq, Repr

/-- Builder mirroring `shapely.geometry.box(minx, miny, maxx, maxy)`
(argument order as in shapely). -/
def box (minx miny maxx maxy : ℚ) : Rect := ⟨minx, miny, maxx, maxy⟩

/-- Degenerate rectangle for a `shapely.geometry.Point`. -/
def ptRect (x y : ℚ) : Rect := ⟨x, y, x, y⟩

/-- A rectangle is well formed (nonempty) when its corners are ordered. -/
def validRect (g : Rect) : Prop := g.x1 ≤ g.x2 ∧ g.y1 ≤ g.y2

/-- One-dimensional part of the DE-9IM interior test: do the interiors of
the closed intervals `[bLo, bHi]` and `[gLo, gHi]` intersect, where the
interior of a degenerate interval (taken in its own dimension, as DE-9IM
does) is the point itself?  `[bLo, bHi]` is a side of a region box, which
is never degenerate. -/
def interDim (bLo bHi gLo gHi : ℚ) : Bool :=
  if gLo < gHi then decide (max bLo gLo < min bHi gHi)
  else decide (bLo < gLo) && decide (gLo < bHi)

/-- Shapely `b.contains(g)` for axis-aligned rectangles: `g` is a subset
of the closed box `b` and the interior of `g` (in its own dimension)
meets the interior of `b`.  For a point this is exactly membership in
the open interior of `b`. -/
def contains (b g : Rect) : Bool :=
  decide (b.x1 ≤ g.x1) && decide (g.x2 ≤ b.x2) &&
  decide (b.y1 ≤ g.y1) && decide (g.y2 ≤ b.y2) &&
  interDim b.x1 b.x2 g.x1 g.x2 && interDim b.y1 b.y2 g.y1 g.y2

/-- The fixed region table of `_get_region`, in the Python dict's
insertion order `na, hi, pr`. -/
def region_bbox : List (String × Rect) :=
  [("na", box (-136.8989) 6.0761 (-6.1376) 69.077),
   ("hi", box (-160.3055) 17.9539 (-154.7715) 23.5186),
   ("pr", box (-67.9927) 16.8443 (-64.1195) 19.9381)]

/-- The `InvalidInputRange` message raised by `_get_region`. -/
def outsideMsg (gid : String) : String :=
  "Input location with ID of " ++ gid ++ " is outside the Daymet spatial range."

/-- The function `_get_region(gid, geom)`: return the first region whose box contains
the geometry, else raise `InvalidInputRange`. -/
def get_region (gid : String) (g : Rect) : Except String String :=
  match region_bbox.find? (fun p => contains p.2 g) with
  | some p => .ok p.1
  | none => .error (outsideMsg gid)

/-- The geometry lies strictly inside the open interior of the box. -/
def strictlyInside (b g : Rect) : Prop :=
  b.x1 < g.x1 ∧ g.x2 < b.x2 ∧ b.y1 < g.y1 ∧ g.y2 < b.y2

/-- The geometry is disjoint from the closed box. -/
def outsideOf (b g : Rect) : Prop :=
  g.x2 < b.x1 ∨ b.x2 < g.x1 ∨ g.y2 < b.y1 ∨ b.y2 < g.y1

/-- The point `(x, y)` lies on the boundary of the closed box `b`. -/
def onBoundaryPt (b : Rect) (x y : ℚ) : Prop :=
  (b.x1 ≤ x ∧ x ≤ b.x2 ∧ b.y1 ≤ y ∧ y ≤ b.y2) ∧ ¬ strictlyInside b (ptRect x y)

theorem interDim_of_strict {bLo bHi gLo gHi : ℚ} (hv : gLo ≤ gHi)
    (h1 : bLo < gLo) (h2 : gHi < bHi) : interDim bLo bHi gLo gHi = true := by
  unfold interDim
  split
  · next hlt =>
      have : max bLo gLo = gLo := max_eq_right h1.le
      have h' : min bHi gHi = gHi := min_eq_right h2.le
      simp only [decide_eq_true_eq, this, h']
      exact hlt
  · next hlt =>
      simp only [Bool.and_eq_true, decide_eq_true_eq]
      exact ⟨h1, lt_of_le_of_lt hv h2⟩

theorem contains_of_strictlyInside (b g : Rect) (hv : validRect g)
    (h : strictlyInside b g) : contains b g = true := by
  obtain ⟨h1, h2, h3, h4⟩ := h
  obtain ⟨hx, hy⟩ := hv
  simp only [contains, Bool.and_eq_true, decide_eq_true_eq]
  exact ⟨⟨⟨⟨⟨h1.le, h2.le⟩, h3.le⟩, h4.le⟩, interDim_of_strict hx h1 h2⟩,
    interDim_of_strict hy h3 h4⟩

theorem not_contains_of_outside (b g : Rect) (hv : validRect g)
    (h : outsideOf b g) : contains b g = false := by
  obtain ⟨hx, hy⟩ := hv
  simp only [contains, Bool.and_eq_false_iff, decide_eq_false_iff_not, not_le]
  rcases h with h | h | h | h
  · exact Or.inl (Or.inl (Or.inl (Or.inl (Or.inl (lt_of_le_of_lt hx h)))))
  · exact Or.inl (Or.inl (Or.inl (Or.inl (Or.inr (lt_of_lt_of_le h hx)))))
  · exact Or.inl (Or.inl (Or.inl (Or.inr (lt_of_le_of_lt hy h))))
  · exact Or.inl (Or.inl (Or.inr (lt_of_lt_of_le h hy)))

theorem contains_ptRect_iff (b : Rect) (x y : ℚ) :
    contains b (ptRect x y) = true ↔ strictlyInside b (ptRect x y) := by
  simp only [contains, ptRect, interDim, lt_irrefl, if_false, strictlyInside,
    Bool.and_eq_true, decide_eq_true_eq]
  constructor
  · rintro ⟨⟨⟨⟨⟨-, -⟩, -⟩, -⟩, hx1, hx2⟩, hy1, hy2⟩
    exact ⟨hx1, hx2, hy1, hy2⟩
  · rintro ⟨hx1, hx2, hy1, hy2⟩
    exact ⟨⟨⟨⟨⟨hx1.le, hx2.le⟩, hy1.le⟩, hy2.le⟩, hx1, hx2⟩, hy1, hy2⟩

/-- C1: for every well-formed geometry strictly inside exactly one of the
three fixed region boxes and outside (disjoint from) the other two,
`_get_region` returns that region's code; for a geometry outside all
three it raises the out-of-domain (`InvalidInputRange`) error. -/
theorem C1_get_region_resolution (gid : String) (g : Rect) (hv : validRect g) :
    (∀ r b, (r, b) ∈ region_bbox → strictlyInside b g →
      (∀ r' b', (r', b') ∈ region_bbox → r' ≠ r → outsideOf b' g) →
      get_region gid g = .ok r) ∧
    ((∀ r b, (r, b) ∈ region_bbox → outsideOf b g) →
      get_region gid g = .error (outsideMsg gid)) := by
  constructor
  · intro r b hmem hin hout
    simp only [region_bbox, List.mem_cons, List.not_mem_nil, or_false,
      Prod.mk.injEq] at hmem
    rcases hmem with ⟨hr, hb⟩ | ⟨hr, hb⟩ | ⟨hr, hb⟩ <;> subst hr <;> subst hb
    · have hna := contains_of_strictlyInside _ g hv hin
      simp [get_region, region_bbox, List.find?, hna]
    · have hna : contains (box (-136.8989) 6.0761 (-6.1376) 69.077) g = false :=
        not_contains_of_outside _ g hv
          (hout "na" _ (by simp [region_bbox]) (by decide))
      have hhi := contains_of_strictlyInside _ g hv hin
      simp [get_region, region_bbox, List.find?, hna, hhi]
    · have hna : contains (box (-136.8989) 6.0761 (-6.1376) 69.077) g = false :=
        not_contains_of_outside _ g hv
          (hout "na" _ (by simp [region_bbox]) (by decide))
      have hhi : contains (box (-160.3055) 17.9539 (-154.7715) 23.5186) g = false :=
        not_contains_of_outside _ g hv
          (hout "hi" _ (by simp [region_bbox]) (by decide))
      have hpr := contains_of_strictlyInside _ g hv hin
      simp [get_region, region_bbox, List.find?, hna, hhi, hpr]
  · intro hout
    have hna : contains (box (-136.8989) 6.0761 (-6.1376) 69.077) g = false :=
      not_contains_of_outside _ g hv (hout "na" _ (by simp [region_bbox]))
    have hhi : contains (box (-160.3055) 17.9539 (-154.7715) 23.5186) g = false :=
      not_contains_of_outside _ g hv (hout "hi" _ (by simp [region_bbox]))
    have hpr : contains (box (-67.9927) 16.8443 (-64.1195) 19.9381) g = false :=
      not_contains_of_outside _ g hv (hout "pr" _ (by simp [region_bbox]))
    simp [get_region, region_bbox, List.find?, hna, hhi, hpr]

theorem C1_get_region_resolution_witness :
    get_region "w" (box (-156) 20 (-155) 21) = .ok "hi" := by
  refine (C1_get_region_resolution "w" (box (-156) 20 (-155) 21)
    (by norm_num [validRect, box])).1 "hi" (box (-160.3055) 17.9539 (-154.7715) 23.5186)
    (by simp [region_bbox]) (by norm_num [strictlyInside, box]) ?_
  intro r' b' hmem hne
  simp only [region_bbox, List.mem_cons, List.not_mem_nil, or_false,
    Prod.mk.injEq] at hmem
  rcases hmem with ⟨hr, hb⟩ | ⟨hr, hb⟩ | ⟨hr, hb⟩ <;> subst hr <;> subst hb
  · norm_num [outsideOf, box]
  · exact absurd rfl hne
  · norm_num [outsideOf, box]

/-- C9: every well-formed geometry strictly inside the Puerto Rico box is
assigned region `na`, never `pr`, because the `na` box contains the whole
`pr` box and regions are tested in the order `na, hi, pr`. -/
theorem C9_pr_shadowed_by_na (gid : String) (g : Rect) (hv : validRect g)
    (h : strictlyInside (box (-67.9927) 16.8443 (-64.1195) 19.9381) g) :
    get_region gid g = .ok "na" ∧ get_region gid g ≠ .ok "pr" := by
  obtain ⟨h1, h2, h3, h4⟩ := h
  have hin : strictlyInside (box (-136.8989) 6.0761 (-6.1376) 69.077) g := by
    refine ⟨lt_trans (by norm_num [box]) h1, lt_trans h2 (by norm_num [box]),
      lt_trans (by norm_num [box]) h3, lt_trans h4 (by norm_num [box])⟩
  have hna := contains_of_strictlyInside _ g hv hin
  have hres : get_region gid g = .ok "na" := by
    simp [get_region, region_bbox, List.find?, hna]
  exact ⟨hres, by simp [hres]⟩

theorem C9_pr_shadowed_by_na_witness :
    get_region "w" (box (-67) 17 (-65) 18) = .ok "na" ∧
    get_region "w" (box (-67) 17 (-65) 18) ≠ .ok "pr" :=
  C9_pr_shadowed_by_na "w" (box (-67) 17 (-65) 18)
    (by norm_num [validRect, box]) (by norm_num [strictlyInside, box])

/-- C10: containment is strict — a point on the boundary of a region box
is not contained in that box, and a point that is strictly inside no
region box (for example, one lying only on box boundaries) makes
`_get_region` raise the out-of-domain (`InvalidInputRange`) error. -/
theorem C10_boundary_not_contained (gid : String) (x y : ℚ) :
    (∀ b : Rect, onBoundaryPt b x y → contains b (ptRect x y) = false) ∧
    ((∀ r b, (r, b) ∈ region_bbox → ¬ strictlyInside b (ptRect x y)) →
      get_region gid (ptRect x y) = .error (outsideMsg gid)) := by
  constructor
  · intro b hb
    rcases hc : contains b (ptRect x y) with _ | _
    · rfl
    · exact absurd ((contains_ptRect_iff b x y).mp hc) hb.2
  · intro hno
    have hna : contains (box (-136.8989) 6.0761 (-6.1376) 69.077) (ptRect x y) = false := by
      rcases hc : contains _ (ptRect x y) with _ | _
      · rfl
      · exact absurd ((contains_ptRect_iff _ x y).mp hc)
          (hno "na" _ (by simp [region_bbox]))
    have hhi : contains (box (-160.3055) 17.9539 (-154.7715) 23.5186) (ptRect x y) = false := by
      rcases hc : contains _ (ptRect x y) with _ | _
      · rfl
      · exact absurd ((contains_ptRect_iff _ x y).mp hc)
          (hno "hi" _ (by simp [region_bbox]))
    have hpr : contains (box (-67.9927) 16.8443 (-64.1195) 19.9381) (ptRect x y) = false := by
      rcases hc : contains _ (ptRect x y) with _ | _
      · rfl
      · exact absurd ((contains_ptRect_iff _ x y).mp hc)
          (hno "pr" _ (by simp [region_bbox]))
    simp [get_region, region_bbox, List.find?, hna, hhi, hpr]

theorem C10_boundary_not_contained_witness :
    contains (box (-136.8989) 6.0761 (-6.1376) 69.077) (ptRect (-136.8989) 40) = false ∧
    get_region "w" (ptRect (-136.8989) 40) = .error (outsideMsg "w") := by
  refine ⟨(C10_boundary_not_contained "w" (-136.8989) 40).1 _
    ⟨by norm_num [box], ?_⟩, (C10_boundary_not_contained "w" (-136.8989) 40).2 ?_⟩
  · norm_num [strictlyInside, box, ptRect]
  · intro r b hmem
    simp only [region_bbox, List.mem_cons, List.not_mem_nil, or_false,
      Prod.mk.injEq] at hmem
    rcases hmem with ⟨hr, hb⟩ | ⟨hr, hb⟩ | ⟨hr, hb⟩ <;> subst hb <;>
      norm_num [strictlyInside, box, ptRect]

/-! ## Request builders (`pydaymet.py`, `_get_filename`, `_coord_urls`,
`_gridded_urls`)

Timestamps are modelled by their calendar fields; `strftime(DATE_REQ)`
with `DATE_REQ = "%Y-%m-%dT%H:%M:%SZ"` is the zero-padded rendering
below.  Python float interpolation `f"{x}"` is modelled by rational
`toString`; its exact text plays no role in any claim.  The service root
`ServiceURL().restful.daymet` comes from an external collaborator and is
taken as a parameter `root`. -/

structure Ts where
  year : Nat
  month : Nat
  day : Nat
  hour : Nat
  minute : Nat
  second : Nat
deriving DecidableEq, Repr

def pad2 (n : Nat) : String :=
  if n < 10 then "0" ++ toString n else toString n

def pad4 (n : Nat) : String :=
  if n < 10 then "000" ++ toString n
  else if n < 100 then "00" ++ toString n
  else if n < 1000 then "0" ++ toString n
  else toString n

/-- Rendering `t.strftime("%Y-%m-%dT%H:%M:%SZ")` (the module constant
`DATE_REQ`). -/
def strftime_req (t : Ts) : String :=
  pad4 t.year ++ "-" ++ pad2 t.month ++ "-" ++ pad2 t.day ++ "T" ++
  pad2 t.hour ++ ":" ++ pad2 t.minute ++ ":" ++ pad2 t.second ++ "Z"

/-- The dict returned by `_get_filename(region)`, keyed by endpoint code. -/
def filename_table (region : String) : List (Nat × (String → String)) :=
  [(1840, fun v => "daily_" ++ region ++ "_" ++ v),
   (1855, fun v => if v = "prcp" then v ++ "_monttl_" ++ region
                   else v ++ "_monavg_" ++ region),
   (1852, fun v => if v = "prcp" then v ++ "_annttl_" ++ region
                   else v ++ "_annavg_" ++ region)]

/-- Dict lookup `_get_filename(region)[code]`; `none` models `KeyError`. -/
def lookupFilename (region : String) (code : Nat) : Option (String → String) :=
  (filename_table region).lookup code

/-- The value `_get_filename(region)[code](v)`, the filename embedded in a
URL. -/
def filenameFor (region : String) (code : Nat) (v : String) : Option String :=
  (lookupFilename region code).map (fun f => f v)

/-- Query parameters, in the insertion order of the Python dict literal. -/
abbrev Params := List (String × String)

/-- A request descriptor: URL plus the inner `params` dict. -/
abbrev Desc := String × Params

/-- One point-mode descriptor of `_coord_urls` (URL and `params` dict). -/
def point_desc (root : String) (code : Nat) (coord : ℚ × ℚ)
    (fname : String → String) (v : String) (d : Ts × Ts) : Desc :=
  (root ++ "/" ++ toString code ++ "/daymet_v4_" ++ fname v ++ "_" ++
     toString d.1.year ++ ".nc",
   [("var", v),
    ("longitude", toString coord.1),
    ("latitude", toString coord.2),
    ("time_start", strftime_req d.1),
    ("time_end", strftime_req d.2),
    ("accept", "csv")])

/-- The function `_coord_urls(code, coord, region, vars, dates)`: a list of
per-variable lists of descriptors, outer loop over vars, inner loop
over the date windows. -/
def coord_urls (root : String) (code : Nat) (coord : ℚ × ℚ) (region : String)
    (vars : List String) (dates : List (Ts × Ts)) :
    Option (List (List Desc)) :=
  (lookupFilename region code).map fun fname =>
    vars.map fun v => dates.map fun d => point_desc root code coord fname v d

/-- The grid-mode `params` dict of `_gridded_urls`, in source order;
`bounds` is `(west, south, east, north)` as produced by shapely
`.bounds`. -/
def grid_params (bounds : ℚ × ℚ × ℚ × ℚ) (v : String) (d : Ts × Ts) : Params :=
  [("var", v),
   ("north", toString bounds.2.2.2),
   ("west", toString bounds.1),
   ("east", toString bounds.2.2.1),
   ("south", toString bounds.2.1),
   ("disableProjSubset", "on"),
   ("horizStride", "1"),
   ("time_start", strftime_req d.1),
   ("time_end", strftime_req d.2),
   ("timeStride", "1"),
   ("addLatLon", "true"),
   ("accept", "netcdf")]

/-- One grid-mode descriptor of `_gridded_urls`. -/
def grid_desc (root : String) (code : Nat) (bounds : ℚ × ℚ × ℚ × ℚ)
    (fname : String → String) (v : String) (d : Ts × Ts) : Desc :=
  (root ++ "/" ++ toString code ++ "/daymet_v4_" ++ fname v ++ "_" ++
     toString d.1.year ++ ".nc",
   grid_params bounds v d)

/-- The function `_gridded_urls(code, bounds, region, vars, dates)`: one flat list
over `itertools.product(vars, dates)`. -/
def gridded_urls (root : String) (code : Nat) (bounds : ℚ × ℚ × ℚ × ℚ)
    (region : String) (vars : List String) (dates : List (Ts × Ts)) :
    Option (List Desc) :=
  (lookupFilename region code).map fun fname =>
    (vars.map fun v => dates.map fun d =>
      grid_desc root code bounds fname v d).flatten

theorem flatten_map_length {α β γ : Type} (l : List α) (m : List β)
    (g : α → β → γ) :
    ((l.map fun a => m.map (g a)).flatten).length = l.length * m.length := by
  induction l with
  | nil => simp
  | cons x xs ih =>
      simp only [List.map_cons, List.flatten_cons, List.length_append,
        List.length_map, List.length_cons, ih, Nat.succ_mul, Nat.add_comm]

theorem flatten_map_getElem? {α β γ : Type} (l : List α) (m : List β)
    (g : α → β → γ) :
    ∀ (i j : Nat) (a : α) (b : β), l[i]? = some a → m[j]? = some b →
      ((l.map fun a => m.map (g a)).flatten)[i * m.length + j]? = some (g a b) := by
  induction l with
  | nil => intro i j a b ha _; simp at ha
  | cons x xs ih =>
      intro i j a b ha hb
      have hj : j < m.length := by
        by_contra hcon
        rw [List.getElem?_eq_none (Nat.le_of_not_lt hcon)] at hb
        exact Option.noConfusion hb
      cases i with
      | zero =>
          rw [List.getElem?_cons_zero, Option.some.injEq] at ha
          subst ha
          simp only [List.map_cons, List.flatten_cons, Nat.zero_mul, Nat.zero_add]
          rw [List.getElem?_append_left (by simpa using hj), List.getElem?_map, hb]
          rfl
      | succ i =>
          rw [List.getElem?_cons_succ] at ha
          simp only [List.map_cons, List.flatten_cons]
          have harith : (i + 1) * m.length + j = m.length + (i * m.length + j) := by
            ring
          rw [harith,
            List.getElem?_append_right (by simp only [List.length_map]; omega)]
          simp only [List.length_map, Nat.add_sub_cancel_left]
          exact ih i j a b ha hb

/-- C2: `_coord_urls` with `V` vars and `W` windows produces exactly
`V * W` descriptors; flattened in source order, the descriptor at index
`i * W + j` belongs to the `i`-th variable and the `j`-th window, so all
windows of one variable (in the given, ascending order) precede the next
variable's. -/
theorem C2_coord_urls_grouping (root : String) (code : Nat) (coord : ℚ × ℚ)
    (region : String) (vars : List String) (dates : List (Ts × Ts))
    (fname : String → String) (L : List (List Desc))
    (hf : lookupFilename region code = some fname)
    (hL : coord_urls root code coord region vars dates = some L) :
    L.flatten.length = vars.length * dates.length ∧
    ∀ (i j : Nat) (v : String) (d : Ts × Ts),
      vars[i]? = some v → dates[j]? = some d →
      L.flatten[i * dates.length + j]? =
        some (point_desc root code coord fname v d) := by
  rw [coord_urls, hf, Option.map_some', Option.some.injEq] at hL
  subst hL
  constructor
  · exact flatten_map_length vars dates _
  · intro i j v d hv hd
    exact flatten_map_getElem? vars dates _ i j v d hv hd

theorem C2_coord_urls_grouping_witness :
    ∃ L, coord_urls "r" 1840 (0, 0) "na" ["tmin", "prcp"]
        [(⟨2001, 1, 1, 12, 0, 0⟩, ⟨2001, 12, 31, 12, 0, 0⟩),
         (⟨2002, 1, 1, 12, 0, 0⟩, ⟨2002, 12, 31, 12, 0, 0⟩),
         (⟨2003, 1, 1, 12, 0, 0⟩, ⟨2003, 12, 31, 12, 0, 0⟩)] = some L ∧
      L.flatten.length = 2 * 3 ∧
      L.flatten[1 * 3 + 2]? =
        some (point_desc "r" 1840 (0, 0)
          (fun v => "daily_" ++ "na" ++ "_" ++ v) "prcp"
          (⟨2003, 1, 1, 12, 0, 0⟩, ⟨2003, 12, 31, 12, 0, 0⟩)) := by
  obtain ⟨hlen, hidx⟩ := C2_coord_urls_grouping "r" 1840 (0, 0) "na"
    ["tmin", "prcp"]
    [(⟨2001, 1, 1, 12, 0, 0⟩, ⟨2001, 12, 31, 12, 0, 0⟩),
     (⟨2002, 1, 1, 12, 0, 0⟩, ⟨2002, 12, 31, 12, 0, 0⟩),
     (⟨2003, 1, 1, 12, 0, 0⟩, ⟨2003, 12, 31, 12, 0, 0⟩)]
    (fun v => "daily_" ++ "na" ++ "_" ++ v) _ rfl rfl
  exact ⟨_, rfl, hlen, hidx 1 2 "prcp" _ rfl rfl⟩

/-- C3: the filename embedded in every request URL follows the archive's
convention: code 1840 gives `daily_{region}_{v}` for every variable;
codes 1855/1852 give the total suffix `monttl`/`annttl` for `prcp` and
the average suffix `monavg`/`annavg` for every other variable. -/
theorem C3_filename_convention (region v : String) :
    filenameFor region 1840 v = some ("daily_" ++ region ++ "_" ++ v) ∧
    filenameFor region 1855 "prcp" = some ("prcp" ++ "_monttl_" ++ region) ∧
    filenameFor region 1852 "prcp" = some ("prcp" ++ "_annttl_" ++ region) ∧
    (v ≠ "prcp" →
      filenameFor region 1855 v = some (v ++ "_monavg_" ++ region) ∧
      filenameFor region 1852 v = some (v ++ "_annavg_" ++ region)) := by
  refine ⟨rfl, rfl, rfl, fun hv => ⟨?_, ?_⟩⟩ <;>
    simp [filenameFor, lookupFilename, filename_table, List.lookup, hv]

theorem C3_filename_convention_witness :
    filenameFor "na" 1840 "tmin" = some "daily_na_tmin" ∧
    filenameFor "na" 1855 "prcp" = some "prcp_monttl_na" ∧
    filenameFor "na" 1852 "prcp" = some "prcp_annttl_na" ∧
    filenameFor "na" 1855 "tmin" = some "tmin_monavg_na" ∧
    filenameFor "na" 1852 "tmin" = some "tmin_annavg_na" := by
  obtain ⟨h1, h2, h3, h4⟩ := C3_filename_convention "na" "tmin"
  obtain ⟨h5, h6⟩ := h4 (by decide)
  exact ⟨h1, h2, h3, h5, h6⟩

/-- The query-parameter keys of a grid-mode descriptor, in source order. -/
def grid_param_keys : List String :=
  ["var", "north", "west", "east", "south", "disableProjSubset",
   "horizStride", "time_start", "time_end", "timeStride", "addLatLon",
   "accept"]

/-- C4: `_gridded_urls` emits one descriptor per element of the cartesian
product `vars x dates` (in product order), and each descriptor
carries exactly the parameters `var`, `north`, `south`, `east`, `west`,
`disableProjSubset=on`, `horizStride=1`, `timeStride=1`, `time_start`,
`time_end` (rendered at second precision), `addLatLon=true`,
`accept=netcdf`. -/
theorem C4_gridded_urls_params (root : String) (code : Nat)
    (bounds : ℚ × ℚ × ℚ × ℚ) (region : String) (vars : List String)
    (dates : List (Ts × Ts)) (fname : String → String) (L : List Desc)
    (hf : lookupFilename region code = some fname)
    (hL : gridded_urls root code bounds region vars dates = some L) :
    L.length = vars.length * dates.length ∧
    (∀ (i j : Nat) (v : String) (d : Ts × Ts),
      vars[i]? = some v → dates[j]? = some d →
      L[i * dates.length + j]? = some (grid_desc root code bounds fname v d)) ∧
    (∀ (v : String) (d : Ts × Ts),
      (grid_params bounds v d).map Prod.fst = grid_param_keys ∧
      grid_param_keys.Perm
        ["var", "north", "south", "east", "west", "disableProjSubset",
         "horizStride", "timeStride", "time_start", "time_end", "addLatLon",
         "accept"] ∧
      (grid_params bounds v d).lookup "var" = some v ∧
      (grid_params bounds v d).lookup "disableProjSubset" = some "on" ∧
      (grid_params bounds v d).lookup "horizStride" = some "1" ∧
      (grid_params bounds v d).lookup "timeStride" = some "1" ∧
      (grid_params bounds v d).lookup "time_start" = some (strftime_req d.1) ∧
      (grid_params bounds v d).lookup "time_end" = some (strftime_req d.2) ∧
      (grid_params bounds v d).lookup "addLatLon" = some "true" ∧
      (grid_params bounds v d).lookup "accept" = some "netcdf") := by
  rw [gridded_urls, hf, Option.map_some', Option.some.injEq] at hL
  subst hL
  refine ⟨flatten_map_length vars dates _, ?_, ?_⟩
  · intro i j v d hv hd
    exact flatten_map_getElem? vars dates _ i j v d hv hd
  · intro v d
    refine ⟨rfl, by decide, rfl, ?_, ?_, ?_, ?_, ?_, ?_, ?_⟩ <;>
      simp [grid_params, List.lookup]

theorem C4_gridded_urls_params_witness :
    ∃ L, gridded_urls "r" 1855 (1, 2, 3, 4) "hi" ["prcp"]
        [(⟨2001, 1, 1, 0, 0, 0⟩, ⟨2001, 12, 31, 0, 0, 0⟩)] = some L ∧
      L.length = 1 * 1 ∧
      L[0 * 1 + 0]? = some (grid_desc "r" 1855 (1, 2, 3, 4)
        (fun v => if v = "prcp" then v ++ "_monttl_" ++ "hi"
                  else v ++ "_monavg_" ++ "hi") "prcp"
        (⟨2001, 1, 1, 0, 0, 0⟩, ⟨2001, 12, 31, 0, 0, 0⟩)) := by
  obtain ⟨hlen, hidx, -⟩ := C4_gridded_urls_params "r" 1855 (1, 2, 3, 4) "hi"
    ["prcp"] [(⟨2001, 1, 1, 0, 0, 0⟩, ⟨2001, 12, 31, 0, 0, 0⟩)]
    (fun v => if v = "prcp" then v ++ "_monttl_" ++ "hi"
              else v ++ "_monavg_" ++ "hi") _ rfl rfl
  exact ⟨_, rfl, hlen, hidx 0 0 "prcp" _ rfl rfl⟩

/-! ## Grid-mode assembly (`pydaymet.py`, `get_bygeom`, lines 241-291)

The merged array dataset is modelled by its metadata skeleton: a list of
data variables with their attribute dicts plus the dataset-level
attribute dict.  `xr.open_mfdataset` and `geoutils` are external
collaborators: the merge outcome, the affine transform and the spatial
mask enter as parameters.  Attribute values are tagged so that strings,
numeric tuples and the transform stay distinguishable. -/

structure Transform where
  a : ℚ
  b : ℚ
  c : ℚ
  d : ℚ
  e : ℚ
  f : ℚ
deriving DecidableEq, Repr

inductive AttrV where
  | s (v : String)
  | tup (v : List ℚ)
  | trans (t : Transform)
  | pair (x y : ℚ)
deriving DecidableEq, Repr

abbrev Attrs := List (String × AttrV)

/-- Python dict assignment `attrs[k] = v` on an ordered association
list: replace the first binding of `k`, else append. -/
def setAttr : Attrs → String → AttrV → Attrs
  | [], k, v => [(k, v)]
  | (k', v') :: rest, k, v =>
    if k' = k then (k, v) :: rest else (k', v') :: setAttr rest k v

/-- Ordered-dict lookup. -/
def alookup {β : Type} : List (String × β) → String → Option β
  | [], _ => none
  | (k', v) :: rest, k => if k' = k then some v else alookup rest k

structure GridDataset where
  vars : List (String × Attrs)
  attrs : Attrs
deriving DecidableEq, Repr

/-- The units loop: `for k, v in daymet.units.items(): if k in
clm.variables: clm[k].attrs["units"] = v` (the units table is a dict,
so its keys are unique). -/
def setUnits (units : List (String × String)) (clm : GridDataset) :
    GridDataset :=
  { clm with vars := clm.vars.map fun p =>
      match alookup units p.1 with
      | some u => (p.1, setAttr p.2 "units" (.s u))
      | none => p }

/-- Projection of `clm.drop_vars([...])`. -/
def dropVars (names : List String) (clm : GridDataset) : GridDataset :=
  { clm with vars := clm.vars.filter fun p => !(names.contains p.1) }

/-- The `" ".join([...])` Lambert Conformal Conic definition string. -/
def daymet_crs : String :=
  String.intercalate " "
    ["+proj=lcc", "+lat_1=25", "+lat_2=60", "+lat_0=42.5", "+lon_0=-100",
     "+x_0=0", "+y_0=0", "+ellps=WGS84", "+units=km", "+no_defs"]

/-- The post-merge normalization of `get_bygeom` (with `pet=None`): set
per-variable units, drop `lambert_conformal_conic`, set the
dataset-level `crs`, `nodatavals`, `transform` and `res` attributes, and
propagate `crs`/`nodatavals` onto every remaining data variable.  This
is the dataset handed to the spatial mask. -/
def postMerge (units : List (String × String)) (t : Transform)
    (clm : GridDataset) : GridDataset :=
  let c1 := setUnits units clm
  let c2 := dropVars ["lambert_conformal_conic"] c1
  let newAttrs :=
    setAttr (setAttr (setAttr (setAttr c2.attrs "crs" (.s daymet_crs))
      "nodatavals" (.tup [0])) "transform" (.trans t)) "res" (.pair t.a t.e)
  let c3 : GridDataset := { c2 with attrs := newAttrs }
  let newVars := c3.vars.map fun p =>
    (p.1, setAttr (setAttr p.2 "crs" (.s daymet_crs)) "nodatavals" (.tup [0]))
  { c3 with vars := newVars }

/-- The `ServiceError` message raised when `xr.open_mfdataset` fails. -/
def serviceErrorMsg : String :=
  "The service did NOT process your request successfully. " ++
  "Check your inputs and try again."

inductive GridOutcome (α : Type) where
  | ok (clm : α)
  | serviceError (msg : String)
deriving DecidableEq, Repr

/-- The `try/except ValueError` around `xr.open_mfdataset` followed by
the post-merge pipeline and the spatial mask: a merge `ValueError`
becomes a `ServiceError` for the whole batch, a successful merge is
normalized and masked. -/
def get_bygeom_assemble (mergeResult : Except String GridDataset)
    (units : List (String × String)) (t : Transform)
    (mask : GridDataset → GridDataset) : GridOutcome GridDataset :=
  match mergeResult with
  | .error _ => .serviceError serviceErrorMsg
  | .ok clm => .ok (mask (postMerge units t clm))

theorem alookup_setAttr_self (m : Attrs) (k : String) (v : AttrV) :
    alookup (setAttr m k v) k = some v := by
  induction m with
  | nil => simp [setAttr, alookup]
  | cons p rest ih =>
      obtain ⟨k', v'⟩ := p
      by_cases h : k' = k
      · simp [setAttr, alookup, h]
      · simp [setAttr, alookup, h, ih]

theorem alookup_setAttr_ne (m : Attrs) (k k' : String) (v : AttrV)
    (h : k' ≠ k) : alookup (setAttr m k v) k' = alookup m k' := by
  induction m with
  | nil => simp [setAttr, alookup, Ne.symm h]
  | cons p rest ih =>
      obtain ⟨k'', v''⟩ := p
      by_cases h2 : k'' = k
      · subst h2
        simp [setAttr, alookup, Ne.symm h]
      · simp [setAttr, alookup, h2, ih]

theorem postMerge_attrs (units : List (String × String)) (t : Transform)
    (clm : GridDataset) :
    (postMerge units t clm).attrs =
      setAttr (setAttr (setAttr (setAttr clm.attrs "crs" (.s daymet_crs))
        "nodatavals" (.tup [0])) "transform" (.trans t)) "res"
        (.pair t.a t.e) := rfl

theorem postMerge_vars (units : List (String × String)) (t : Transform)
    (clm : GridDataset) :
    (postMerge units t clm).vars =
      ((setUnits units clm).vars.filter fun p =>
          !(["lambert_conformal_conic"].contains p.1)).map fun p =>
        (p.1, setAttr (setAttr p.2 "crs" (.s daymet_crs)) "nodatavals"
          (.tup [0])) := rfl

/-- C5: a `ValueError` from the multi-file open/merge is re-raised as a
single `ServiceError` for the whole batch, and a dataset comes back only
when the merge itself succeeded (no partial dataset). -/
theorem C5_merge_failure_is_service_error
    (mergeResult : Except String GridDataset)
    (units : List (String × String)) (t : Transform)
    (mask : GridDataset → GridDataset) :
    (∀ e, mergeResult = .error e →
      get_bygeom_assemble mergeResult units t mask =
        .serviceError serviceErrorMsg) ∧
    (∀ d, get_bygeom_assemble mergeResult units t mask = .ok d →
      ∃ clm, mergeResult = .ok clm ∧ d = mask (postMerge units t clm)) := by
  constructor
  · intro e he
    subst he
    rfl
  · intro d hd
    cases mergeResult with
    | error e => exact absurd hd (by simp [get_bygeom_assemble])
    | ok clm =>
        refine ⟨clm, rfl, ?_⟩
        simpa [get_bygeom_assemble] using hd.symm

theorem C5_merge_failure_is_service_error_witness :
    get_bygeom_assemble (.error "merge mismatch") [] ⟨1, 0, 0, 0, 1, 0⟩ id =
      .serviceError serviceErrorMsg :=
  (C5_merge_failure_is_service_error (.error "merge mismatch") []
    ⟨1, 0, 0, 0, 1, 0⟩ id).1 "merge mismatch" rfl

/-- C7: after the merge, `get_bygeom` drops `lambert_conformal_conic`,
sets the dataset `crs` attribute to the fixed Lambert Conformal Conic
string, sets the `nodatavals` sentinel `(0.0,)`, attaches the transform
(and resolution), and propagates `crs`/`nodatavals` onto every data
variable, all before masking. -/
theorem C7_post_merge_metadata (units : List (String × String))
    (t : Transform) (clm : GridDataset) :
    daymet_crs = "+proj=lcc +lat_1=25 +lat_2=60 +lat_0=42.5 " ++
      "+lon_0=-100 +x_0=0 +y_0=0 +ellps=WGS84 +units=km +no_defs" ∧
    (∀ p ∈ (postMerge units t clm).vars, p.1 ≠ "lambert_conformal_conic") ∧
    alookup (postMerge units t clm).attrs "crs" = some (.s daymet_crs) ∧
    alookup (postMerge units t clm).attrs "nodatavals" = some (.tup [0]) ∧
    alookup (postMerge units t clm).attrs "transform" = some (.trans t) ∧
    alookup (postMerge units t clm).attrs "res" = some (.pair t.a t.e) ∧
    (∀ p ∈ (postMerge units t clm).vars,
      alookup p.2 "crs" = some (.s daymet_crs) ∧
      alookup p.2 "nodatavals" = some (.tup [0])) := by
  refine ⟨rfl, ?_, ?_, ?_, ?_, ?_, ?_⟩
  · intro p hp
    rw [postMerge_vars] at hp
    simp only [List.mem_map, List.mem_filter] at hp
    obtain ⟨q, ⟨-, hne⟩, hpq⟩ := hp
    intro hc
    rw [← hpq] at hc
    simp only [List.contains_cons, List.contains_nil, Bool.or_false,
      Bool.not_eq_true', beq_eq_false_iff_ne, ne_eq] at hne
    exact hne (by simpa using hc)
  · rw [postMerge_attrs, alookup_setAttr_ne _ _ _ _ (by decide),
      alookup_setAttr_ne _ _ _ _ (by decide),
      alookup_setAttr_ne _ _ _ _ (by decide), alookup_setAttr_self]
  · rw [postMerge_attrs, alookup_setAttr_ne _ _ _ _ (by decide),
      alookup_setAttr_ne _ _ _ _ (by decide), alookup_setAttr_self]
  · rw [postMerge_attrs, alookup_setAttr_ne _ _ _ _ (by decide),
      alookup_setAttr_self]
  · rw [postMerge_attrs, alookup_setAttr_self]
  · intro p hp
    rw [postMerge_vars] at hp
    simp only [List.mem_map] at hp
    obtain ⟨q, -, hpq⟩ := hp
    rw [← hpq]
    dsimp only
    exact ⟨by rw [alookup_setAttr_ne _ _ _ _ (by decide), alookup_setAttr_self],
      alookup_setAttr_self _ _ _⟩

theorem C7_post_merge_metadata_witness :
    (∀ p ∈ (postMerge [("tmin", "degrees C")] ⟨1, 0, 0, 0, 1, 0⟩
        ⟨[("tmin", []), ("lambert_conformal_conic", [])], []⟩).vars,
      p.1 ≠ "lambert_conformal_conic") ∧
    alookup (postMerge [("tmin", "degrees C")] ⟨1, 0, 0, 0, 1, 0⟩
        ⟨[("tmin", []), ("lambert_conformal_conic", [])], []⟩).attrs "crs" =
      some (.s daymet_crs) := by
  obtain ⟨-, h1, h2, -⟩ := C7_post_merge_metadata [("tmin", "degrees C")]
    ⟨1, 0, 0, 0, 1, 0⟩ ⟨[("tmin", []), ("lambert_conformal_conic", [])], []⟩
  exact ⟨h1, h2⟩

/-! ## Point-mode column normalization (`pydaymet.py`, `get_bycoords`,
lines 135-138)

`str.replace(old, new)` replaces every non-overlapping occurrence of
`old`, scanning left to right.  Column labels are modelled as `List
Char`; `replaceAllGo` is the scan, driven by a fuel argument equal to
the string length so that it stays structurally recursive (every step
consumes at least one character). -/

def replaceAllGo (p r : List Char) : Nat → List Char → List Char
  | _, [] => []
  | 0, s => s
  | fuel + 1, c :: cs =>
    if p ≠ [] ∧ p.isPrefixOf (c :: cs) then
      r ++ replaceAllGo p r fuel (cs.drop (p.length - 1))
    else
      c :: replaceAllGo p r fuel cs

/-- Python `s.replace(p, r)` for a nonempty pattern `p`. -/
def replaceAll (p r s : List Char) : List Char :=
  replaceAllGo p r s.length s

/-- The rewrite `c.replace('[unit="', " (").replace('"]', ")")`, applied to every
column label of the point-mode payload. -/
def normalizeCol (c : List Char) : List Char :=
  replaceAll "\"]".data ")".data (replaceAll "[unit=\"".data " (".data c)

/-- The column relabelling of `get_bycoords`: normalize every label, then
`rename(columns={"prcp (mm)": "prcp (mm/day)"})` guarded by
`if "prcp (mm)" in clm`. -/
def renameColumns (cols : List (List Char)) : List (List Char) :=
  let ncols := cols.map normalizeCol
  if "prcp (mm)".data ∈ ncols then
    ncols.map fun c => if c = "prcp (mm)".data then "prcp (mm/day)".data else c
  else ncols

theorem replaceAllGo_fuel (p r : List Char) :
    ∀ (f1 f2 : Nat) (s : List Char), s.length ≤ f1 → s.length ≤ f2 →
      replaceAllGo p r f1 s = replaceAllGo p r f2 s := by
  intro f1
  induction f1 with
  | zero =>
      intro f2 s hs1 _
      rw [Nat.le_zero] at hs1
      rw [List.length_eq_zero] at hs1
      subst hs1
      cases f2 <;> rfl
  | succ f1 ih =>
      intro f2 s hs1 hs2
      cases s with
      | nil => cases f2 <;> rfl
      | cons c cs =>
          cases f2 with
          | zero => exact absurd hs2 (by simp)
          | succ f2 =>
              simp only [replaceAllGo]
              have hcs : cs.length ≤ f1 := by
                simpa using Nat.le_of_succ_le_succ hs1
              have hcs2 : cs.length ≤ f2 := by
                simpa using Nat.le_of_succ_le_succ hs2
              split
              · rw [ih f2 (cs.drop (p.length - 1))
                  (le_trans (by simp) hcs) (le_trans (by simp) hcs2)]
              · rw [ih f2 cs hcs hcs2]

theorem cons_isPrefixOf_cons (p0 c : Char) (p' cs : List Char) :
    (p0 :: p').isPrefixOf (c :: cs) = (p0 == c && p'.isPrefixOf cs) := rfl

theorem isPrefixOf_append_self (p' t : List Char) :
    p'.isPrefixOf (p' ++ t) = true := by
  induction p' with
  | nil => simp [List.isPrefixOf]
  | cons a as ih => simp [cons_isPrefixOf_cons, ih]

theorem replaceAll_nil (p r : List Char) : replaceAll p r [] = [] := rfl

theorem replaceAll_cons (p0 : Char) (p' r : List Char) (c : Char)
    (cs : List Char) :
    replaceAll (p0 :: p') r (c :: cs) =
      if (p0 :: p').isPrefixOf (c :: cs) then
        r ++ replaceAll (p0 :: p') r (cs.drop p'.length)
      else c :: replaceAll (p0 :: p') r cs := by
  show replaceAllGo (p0 :: p') r (cs.length + 1) (c :: cs) = _
  rw [replaceAllGo]
  simp only [ne_eq, reduceCtorEq, not_false_eq_true, true_and,
    List.length_cons, Nat.add_sub_cancel]
  split
  · rw [replaceAll,
      replaceAllGo_fuel (p0 :: p') r cs.length (cs.drop p'.length).length
        (cs.drop p'.length) (by simp) le_rfl]
  · rw [replaceAll]

theorem replaceAll_not_mem (p0 : Char) (p' r : List Char) (s : List Char)
    (h : p0 ∉ s) : replaceAll (p0 :: p') r s = s := by
  induction s with
  | nil => rfl
  | cons c cs ih =>
      have hc : ¬(p0 :: p').isPrefixOf (c :: cs) := by
        rw [cons_isPrefixOf_cons]
        intro hpre
        have hh := ((Bool.and_eq_true _ _).mp hpre).1
        exact h (beq_iff_eq.mp hh ▸ List.mem_cons_self c cs)
      rw [replaceAll_cons, if_neg hc, ih fun hm => h (List.mem_cons_of_mem c hm)]

theorem replaceAll_append (p0 : Char) (p' r : List Char) (s t : List Char)
    (h : p0 ∉ s) :
    replaceAll (p0 :: p') r (s ++ t) = s ++ replaceAll (p0 :: p') r t := by
  induction s with
  | nil => simp
  | cons c cs ih =>
      have hc : ¬(p0 :: p').isPrefixOf (c :: (cs ++ t)) := by
        rw [cons_isPrefixOf_cons]
        intro hpre
        have hh := ((Bool.and_eq_true _ _).mp hpre).1
        exact h (beq_iff_eq.mp hh ▸ List.mem_cons_self c cs)
      rw [List.cons_append, replaceAll_cons, if_neg hc,
        ih fun hm => h (List.mem_cons_of_mem c hm), List.cons_append]

theorem replaceAll_here (p0 : Char) (p' r t : List Char) :
    replaceAll (p0 :: p') r ((p0 :: p') ++ t) = r ++ replaceAll (p0 :: p') r t := by
  have hpre : (p0 :: p').isPrefixOf (p0 :: (p' ++ t)) := by
    rw [cons_isPrefixOf_cons, isPrefixOf_append_self]
    simp
  rw [List.cons_append, replaceAll_cons, if_pos hpre, List.drop_left]

/-- C6: every raw point-mode column label of the form `name[unit="u"]`
(with `name` and `u` free of `[` and `"`) is rewritten to `name (u)`,
and the precipitation column `prcp (mm)` obtained that way is renamed to
the per-day rate label `prcp (mm/day)` (after which no `prcp (mm)`
column remains). -/
theorem C6_column_relabelling (name u : List Char)
    (h1 : '[' ∉ name) (h2 : '"' ∉ name) (h3 : '[' ∉ u) (h4 : '"' ∉ u) :
    normalizeCol (name ++ "[unit=\"".data ++ u ++ "\"]".data) =
      name ++ " (".data ++ u ++ ")".data ∧
    (∀ cols : List (List Char), "prcp (mm)".data ∉ renameColumns cols) ∧
    (∀ cols : List (List Char), "prcp[unit=\"mm\"]".data ∈ cols →
      "prcp (mm/day)".data ∈ renameColumns cols) := by
  refine ⟨?_, ?_, ?_⟩
  · have step1 : replaceAll "[unit=\"".data " (".data
        (name ++ "[unit=\"".data ++ u ++ "\"]".data) =
        name ++ " (".data ++ (u ++ "\"]".data) := by
      rw [List.append_assoc, List.append_assoc,
        replaceAll_append '[' "unit=\"".data " (".data name _ h1,
        replaceAll_here '[' "unit=\"".data " (".data (u ++ "\"]".data),
        replaceAll_not_mem '[' "unit=\"".data " (".data (u ++ "\"]".data)
          (by simp [h3])]
      simp [List.append_assoc]
    rw [normalizeCol, step1]
    rw [show name ++ " (".data ++ (u ++ "\"]".data) =
        (name ++ " (".data ++ u) ++ "\"]".data by simp [List.append_assoc]]
    rw [show ("\"]".data : List Char) = '"' :: "]".data from rfl]
    rw [replaceAll_append '"' "]".data ")".data (name ++ " (".data ++ u) _
      (by simp [h2, h4])]
    rw [show replaceAll ('"' :: "]".data) ")".data ('"' :: "]".data) =
      ")".data from by decide]
  · intro cols
    rw [renameColumns]
    split
    · next hmem =>
        intro hbad
        simp only [List.mem_map] at hbad
        obtain ⟨c, -, hc⟩ := hbad
        by_cases he : c = "prcp (mm)".data
        · rw [if_pos he] at hc
          exact absurd hc (by decide)
        · rw [if_neg he] at hc
          exact he hc
    · next hmem => exact hmem
  · intro cols hmem
    have hn : normalizeCol "prcp[unit=\"mm\"]".data = "prcp (mm)".data := by
      decide
    have hmem2 : "prcp (mm)".data ∈ cols.map normalizeCol := by
      rw [← hn]
      exact List.mem_map_of_mem normalizeCol hmem
    rw [renameColumns]
    simp only [hmem2, if_pos]
    refine List.mem_map.mpr ⟨"prcp (mm)".data, hmem2, ?_⟩
    rw [if_pos rfl]

theorem C6_column_relabelling_witness :
    normalizeCol ("tmin".data ++ "[unit=\"".data ++ "degrees C".data ++
        "\"]".data) =
      "tmin".data ++ " (".data ++ "degrees C".data ++ ")".data ∧
    "prcp (mm/day)".data ∈ renameColumns ["prcp[unit=\"mm\"]".data] := by
  obtain ⟨ha, -, hc⟩ := C6_column_relabelling "tmin".data "degrees C".data
    (by decide) (by decide) (by decide) (by decide)
  exact ⟨ha, hc ["prcp[unit=\"mm\"]".data] (by decide)⟩

/-! ## Point-mode re-assembly determinism (`pydaymet.py`, `get_bycoords`,
lines 119-134, and the concurrency model of the spec)

`get_bycoords` calls the transport collaborator once per variable on
that variable's window-ordered URL list and concatenates the decoded
payloads in that same plan order.  The transport's bounded worker pool
is modelled from the spec's scheduling model: workers complete in an
arbitrary order (`order`, a permutation of the request positions) and
each writes its payload into a position-addressed buffer slot; the
caller then consumes the buffer in plan order.  `fetch` maps a request
to its payload, which is fixed across runs ("per-request payloads are
equal"). -/

def runSchedule {α β : Type} (urls : List α) (fetch : α → β)
    (order : List Nat) : List (Option β) :=
  order.foldl
    (fun buf i =>
      match urls[i]? with
      | some u => buf.set i (some (fetch u))
      | none => buf)
    (List.replicate urls.length (none : Option β))

/-- The per-variable buffers of one point-mode run: variable `i`'s
requests are fetched under completion order `orders[i]` into a
position-addressed buffer. -/
def assemblePoint {α β : Type} (urlss : List (List α)) (fetch : α → β)
    (orders : List (List Nat)) : List (List (Option β)) :=
  List.zipWith (fun us ord => runSchedule us fetch ord) urlss orders

theorem runSchedule_foldl_length {α β : Type} (urls : List α) (fetch : α → β) :
    ∀ (order : List Nat) (buf : List (Option β)),
      (order.foldl
        (fun buf i =>
          match urls[i]? with
          | some u => buf.set i (some (fetch u))
          | none => buf)
        buf).length = buf.length := by
  intro order
  induction order with
  | nil => intro buf; rfl
  | cons i rest ih =>
      intro buf
      rw [List.foldl_cons, ih]
      cases urls[i]? <;> simp

theorem runSchedule_foldl_getElem? {α β : Type} (urls : List α)
    (fetch : α → β) :
    ∀ (order : List Nat) (buf : List (Option β))
      (hb : buf.length = urls.length) (j : Nat),
      (order.foldl
        (fun buf i =>
          match urls[i]? with
          | some u => buf.set i (some (fetch u))
          | none => buf)
        buf)[j]? =
        if j ∈ order ∧ j < urls.length then
          urls[j]?.map (fun u => some (fetch u))
        else buf[j]? := by
  intro order
  induction order with
  | nil =>
      intro buf _ j
      simp
  | cons i rest ih =>
      intro buf hb j
      have hblen : (match urls[i]? with
          | some u => buf.set i (some (fetch u))
          | none => buf).length = urls.length := by
        cases urls[i]? <;> simp [hb]
      rw [List.foldl_cons, ih _ hblen j]
      by_cases hrest : j ∈ rest ∧ j < urls.length
      · rw [if_pos hrest, if_pos ⟨List.mem_cons_of_mem i hrest.1, hrest.2⟩]
      · rw [if_neg hrest]
        by_cases hji : j = i
        · subst hji
          by_cases hj : j < urls.length
          · obtain ⟨u, hu⟩ : ∃ u, urls[j]? = some u :=
              ⟨urls[j], List.getElem?_eq_getElem hj⟩
            rw [if_pos ⟨List.mem_cons_self j rest, hj⟩, hu]
            simp only [hu]
            rw [List.getElem?_set_self' (l := buf)]
            rw [List.getElem?_eq_getElem (hb ▸ hj)]
            rfl
          · have : urls[j]? = none := List.getElem?_eq_none (Nat.le_of_not_lt hj)
            rw [if_neg fun hc => hj hc.2]
            simp only [this]
        · rw [if_neg fun hc => by
            rcases List.mem_cons.mp hc.1 with h | h
            · exact hji h
            · exact hrest ⟨h, hc.2⟩]
          cases hu : urls[i]? with
          | none => rfl
          | some u => exact List.getElem?_set_ne (fun h => hji h.symm)

theorem runSchedule_perm {α β : Type} (urls : List α) (fetch : α → β)
    (order : List Nat) (h : order.Perm (List.range urls.length)) :
    runSchedule urls fetch order = urls.map (fun u => some (fetch u)) := by
  apply List.ext_getElem?
  intro j
  rw [runSchedule, runSchedule_foldl_getElem? urls fetch order _
    (List.length_replicate _ _) j]
  by_cases hj : j < urls.length
  · rw [if_pos ⟨h.mem_iff.mpr (List.mem_range.mpr hj), hj⟩,
      List.getElem?_map]
  · rw [if_neg fun hc => hj hc.2,
      List.getElem?_eq_none (by simpa using Nat.le_of_not_lt hj),
      List.getElem?_eq_none (by simpa using Nat.le_of_not_lt hj)]

theorem assemblePoint_canonical {α β : Type} (urlss : List (List α))
    (fetch : α → β) (orders : List (List Nat))
    (h : List.Forall₂ (fun us ord => ord.Perm (List.range us.length))
      urlss orders) :
    assemblePoint urlss fetch orders =
      urlss.map (fun us => us.map (fun u => some (fetch u))) := by
  induction h with
  | nil => rfl
  | cons hp _ ih =>
      rw [assemblePoint, List.zipWith_cons_cons, List.map_cons,
        runSchedule_perm _ _ _ hp]
      exact congrArg _ ih

/-- C8: the assembled point-mode payload table is determined solely by
the request plan — for two runs over the same plan with equal
per-request payloads, any two completion orders of the bounded worker
pool yield identical buffers, equal to the plan-ordered payload lists
(variables in plan order, windows in ascending plan order). -/
theorem C8_assembly_order_independent {α β : Type} (urlss : List (List α))
    (fetch : α → β) (orders1 orders2 : List (List Nat))
    (h1 : List.Forall₂ (fun us ord => ord.Perm (List.range us.length))
      urlss orders1)
    (h2 : List.Forall₂ (fun us ord => ord.Perm (List.range us.length))
      urlss orders2) :
    assemblePoint urlss fetch orders1 = assemblePoint urlss fetch orders2 ∧
    assemblePoint urlss fetch orders1 =
      urlss.map (fun us => us.map (fun u => some (fetch u))) := by
  have c1 := assemblePoint_canonical urlss fetch orders1 h1
  have c2 := assemblePoint_canonical urlss fetch orders2 h2
  exact ⟨c1.trans c2.symm, c1⟩

theorem C8_assembly_order_independent_witness :
    assemblePoint [["a", "b"], ["c"]] (fun s => s ++ "!") [[1, 0], [0]] =
      assemblePoint [["a", "b"], ["c"]] (fun s => s ++ "!") [[0, 1], [0]] ∧
    assemblePoint [["a", "b"], ["c"]] (fun s => s ++ "!") [[1, 0], [0]] =
      [[some "a!", some "b!"], [some "c!"]] := by
  have h := C8_assembly_order_independent [["a", "b"], ["c"]]
    (fun s => s ++ "!") [[1, 0], [0]] [[0, 1], [0]]
    (List.Forall₂.cons (by decide) (List.Forall₂.cons (by decide)
      List.Forall₂.nil))
    (List.Forall₂.cons (by decide) (List.Forall₂.cons (by decide)
      List.Forall₂.nil))
  exact ⟨h.1, h.2⟩

end PyDaymet
